import Mathlib

/-!
Shallow embedding of the FoxP2P signaling library (`src/lib/index.ts`).

The library runs single-threaded and event-driven: all mutation happens inside
event callbacks on the relay socket and on peer-channel handles.  We model each
role (`Host`, `Client`) as an explicit state machine: a state record, an event
type covering both the external events the source registers handlers for and
the public API calls, and a step function `step : State → Event → Except Error
State` that is a line-by-line transcription of the corresponding handler or
method body.  Thrown JS errors become `Except.error`; messages written to the
relay socket or to peer handles are accumulated in outbox fields; callback
invocations are recorded as (callback identity, argument) pairs, where a
callback value is identified by a `Nat` tag.

`util/managedPromise.ts` and `util/timedPromise.ts` are part of the repository
but are not under `src/`; they are modelled from the spec where marked.
-/

namespace FoxP2P

/-- The decoded form of a relay envelope (`SignalResponse` discriminated union
from `models/signalResponse.ts`): its `type` discriminant selects the kind, and
the kind-specific fields follow.  `other` stands for any payload whose
discriminant matches none of the known kinds. -/
inductive SignalResponse where
  | roomCreate
  | roomCreated (room : String)
  | joinRoomMsg (offer : String) (room : String)
  | roomJoined (answer : String)
  | guestRequest (offer : String) (client : String)
  | addToRoom (answer : String) (client : String)
  | requestAccepted
  | other (typeTag : String)
  deriving DecidableEq, Repr

/-- A message written to the relay socket (the `JSON.stringify` of one of the
request objects the source constructs). -/
inductive OutboundMessage where
  | createRoomRequest
  | addToRoomRequest (answer : String) (client : String)
  | joinRoomRequest (offer : String) (room : String)
  deriving DecidableEq, Repr

/-- Modelled from the spec: `util/managedPromise.ts` is not under `src/`.  The
Resolvable Future holds an unresolved/resolved state; `resolve(value)`
transitions it to resolved exactly once, and a later `resolve` does not change
the already-resolved value (JS promise semantics: a settled promise ignores
further resolutions).  We represent the promise state as `Option String`. -/
def ManagedPromise.resolveWith (p : Option String) (v : String) : Option String :=
  match p with
  | none => some v
  | some w => some w

/-- Errors thrown by Host code paths: the `switch` default in
`Host.registerEvents` (carrying the offending payload) and the unregistered
client check in `Host.sendTo`. -/
inductive HostError where
  | protocolError (payload : SignalResponse)
  | unknownClient (client : String)
  deriving DecidableEq, Repr

/-- Association-list model of the JS `Map<string, Instance>` used for the
Connection Registry.  Peer handles are identified by the `Nat` allocated at
their construction. -/
def mapHas (m : List (String × Nat)) (k : String) : Bool :=
  m.any (fun e => e.1 = k)

/-- Model of `Map.get`: the value stored at `k`, if any. -/
def mapGet (m : List (String × Nat)) (k : String) : Option Nat :=
  (m.find? (fun e => decide (e.1 = k))).map (fun e => e.2)

/-- Model of `Map.set`: replace in place if the key is present, otherwise append
(JS `Map` preserves insertion order). -/
def mapSet (m : List (String × Nat)) (k : String) (v : Nat) : List (String × Nat) :=
  if mapHas m k then m.map (fun e => if e.1 = k then (k, v) else e) else m ++ [(k, v)]

/-- The state owned by one `Host` instance, plus the observable history of its
side effects.  `pendingGuests` are the peer handshakes constructed by
`registerGuest` whose `connect` event has not yet fired (in the source these
live only in the `registerGuest` closure); `connections` is the Connection
Registry; `connectsFired` records which peer handles have seen their `connect`
event; `dataAttached` records the handles on which the `data` handler has been
installed; `guestJoinedCalls` and `messageCalls` record callback invocations
together with the callback value current at the moment of the call. -/
structure HostState where
  socketOutbox : List OutboundMessage
  socketAlive : Bool
  roomCreated : Option String
  nextPeer : Nat
  pendingGuests : List (Nat × String)
  connections : List (String × Nat)
  guestJoinedCallback : Option Nat
  onMessageReceived : Option Nat
  guestJoinedCalls : List (Option Nat × String)
  messageCalls : List (Option Nat × String)
  dataAttached : List Nat
  connectsFired : List Nat
  peerOutbox : List (Nat × String)
  destroyedPeers : List Nat
  deriving DecidableEq, Repr

/-- A freshly constructed `Host` after `createRoom()` has opened the relay
socket: empty registry, unresolved room-created future, no callbacks. -/
def Host.init : HostState :=
  { socketOutbox := []
    socketAlive := true
    roomCreated := none
    nextPeer := 0
    pendingGuests := []
    connections := []
    guestJoinedCallback := none
    onMessageReceived := none
    guestJoinedCalls := []
    messageCalls := []
    dataAttached := []
    connectsFired := []
    peerOutbox := []
    destroyedPeers := [] }

/-- The events a `Host` reacts to: relay socket events, peer-channel events for
the guest handshakes it constructed, and its public API calls. -/
inductive HostEvent where
  | socketConnect
  | socketData (decoded : SignalResponse)
  | peerSignal (peerId : Nat) (sig : String)
  | peerConnect (peerId : Nat)
  | peerData (peerId : Nat) (payload : String)
  | listenForGuests (cb : Nat)
  | listenForMessages (cb : Nat)
  | sendToAll (message : String)
  | sendTo (client : String) (message : String)
  | closeRoom
  deriving DecidableEq, Repr

/-- Transcription of `Host.registerGuest`: construct a fresh non-initiating peer handshake, feed
it the guest's offer, and install the `signal`/`connect` handlers.  Only the
allocation is immediate; the handlers' effects appear at the corresponding
`peerSignal`/`peerConnect` events. -/
def Host.registerGuest (s : HostState) (client : String) : HostState :=
  { s with
    nextPeer := s.nextPeer + 1
    pendingGuests := s.pendingGuests ++ [(s.nextPeer, client)] }

/-- The `data` handler installed by `Host.registerEvents`: switch on the
envelope discriminant; `RoomCreated` resolves the room-created future,
`GuestRequest` starts a guest handshake, `RequestAccepted` does nothing, and
the default branch throws carrying the decoded payload. -/
def Host.handleData (s : HostState) (decoded : SignalResponse) : Except HostError HostState :=
  match decoded with
  | .roomCreated room => .ok { s with roomCreated := ManagedPromise.resolveWith s.roomCreated room }
  | .guestRequest _ client => .ok (Host.registerGuest s client)
  | .requestAccepted => .ok s
  | payload => .error (.protocolError payload)

/-- One event-dispatch step of a `Host`.  Each arm transcribes the handler or
method of `src/lib/index.ts` it is named after. -/
def Host.step (s : HostState) (ev : HostEvent) : Except HostError HostState :=
  match ev with
  | .socketConnect =>
      .ok { s with socketOutbox := s.socketOutbox ++ [.createRoomRequest] }
  | .socketData decoded => Host.handleData s decoded
  | .peerSignal peerId sig =>
      match (s.pendingGuests ++ s.connections.map (fun e => (e.2, e.1))).find?
          (fun e => decide (e.1 = peerId)) with
      | some e => .ok { s with socketOutbox := s.socketOutbox ++ [.addToRoomRequest sig e.2] }
      | none => .ok s
  | .peerConnect peerId =>
      match s.pendingGuests.find? (fun e => decide (e.1 = peerId)) with
      | some e =>
          .ok { s with
            pendingGuests := s.pendingGuests.filter (fun g => decide (g.1 ≠ peerId))
            connections := mapSet s.connections e.2 peerId
            guestJoinedCalls := s.guestJoinedCalls ++ [(s.guestJoinedCallback, e.2)]
            dataAttached := s.dataAttached ++ [peerId]
            connectsFired := s.connectsFired ++ [peerId] }
      | none => .ok { s with connectsFired := s.connectsFired ++ [peerId] }
  | .peerData peerId payload =>
      if peerId ∈ s.dataAttached then
        .ok { s with messageCalls := s.messageCalls ++ [(s.onMessageReceived, payload)] }
      else .ok s
  | .listenForGuests cb => .ok { s with guestJoinedCallback := some cb }
  | .listenForMessages cb => .ok { s with onMessageReceived := some cb }
  | .sendToAll message =>
      .ok { s with peerOutbox := s.peerOutbox ++ s.connections.map (fun e => (e.2, message)) }
  | .sendTo client message =>
      if mapHas s.connections client then
        match mapGet s.connections client with
        | some peerId => .ok { s with peerOutbox := s.peerOutbox ++ [(peerId, message)] }
        | none => .ok s
      else .error (.unknownClient client)
  | .closeRoom => .ok { s with socketAlive := false }

/-- Run a `Host` through a sequence of events, stopping at the first thrown
error. -/
def Host.run (s : HostState) : List HostEvent → Except HostError HostState
  | [] => .ok s
  | ev :: evs =>
      match Host.step s ev with
      | .ok s1 => Host.run s1 evs
      | .error err => .error err

/-- Errors thrown by Client code paths: the `switch` default in
`Client.registerEvents`, and the failures of `Client.send` — accessing
`this.peer` before `joinRoom` constructed it (a TypeError in the source), or
invoking the peer transport's `send` before its `connect` fired (the peer
transport offers `send` only once connected, per the spec's interface
contract). -/
inductive ClientError where
  | protocolError (payload : SignalResponse)
  | sendBeforePeerConstructed
  | sendBeforeConnected
  deriving DecidableEq, Repr

/-- The Client's peer-channel handle once `joinRoom` has constructed it.
`boundDataHandler = some v` records that the `connect` handler has run and
attached `this.onMessageReceived` — whose value at that moment was `v` — as the
`data` listener; `none` means `connect` has not fired yet. -/
structure PeerHandle where
  connected : Bool
  boundDataHandler : Option (Option Nat)
  deriving DecidableEq, Repr

/-- The state owned by one `Client` instance plus the observable history of its
side effects, in the same style as `HostState`.  `messageCalls` records each
invocation of the data listener bound at connect time. -/
structure ClientState where
  socketOutbox : List OutboundMessage
  roomJoined : Option String
  joinTarget : Option String
  peer : Option PeerHandle
  onMessageReceived : Option Nat
  messageCalls : List (Nat × String)
  signalsApplied : List String
  peerOutbox : List String
  peerDestroyed : Bool
  deriving DecidableEq, Repr

/-- A freshly constructed `Client`: relay socket opened, handlers registered,
unresolved room-joined future, no peer handle yet. -/
def Client.init : ClientState :=
  { socketOutbox := []
    roomJoined := none
    joinTarget := none
    peer := none
    onMessageReceived := none
    messageCalls := []
    signalsApplied := []
    peerOutbox := []
    peerDestroyed := false }

/-- The events a `Client` reacts to: relay socket data, its peer handshake's
events, and its public API calls. -/
inductive ClientEvent where
  | socketData (decoded : SignalResponse)
  | joinRoomCall (room : String)
  | peerSignal (sig : String)
  | peerConnect
  | peerData (payload : String)
  | listenForMessages (cb : Nat)
  | sendCall (message : String)
  | leaveRoom
  deriving DecidableEq, Repr

/-- The `data` handler installed by `Client.registerEvents`: `RoomJoined`
resolves the room-joined future — whose `then` continuation, registered in
`joinRoom`, applies the carried answer to the peer handshake (at most once,
since a settled promise does not resolve again) — `RequestAccepted` does
nothing, and the default branch throws carrying the decoded payload. -/
def Client.handleData (s : ClientState) (decoded : SignalResponse) : Except ClientError ClientState :=
  match decoded with
  | .roomJoined answer =>
      match s.roomJoined with
      | none => .ok { s with roomJoined := some answer, signalsApplied := s.signalsApplied ++ [answer] }
      | some _ => .ok s
  | .requestAccepted => .ok s
  | payload => .error (.protocolError payload)

/-- One event-dispatch step of a `Client`.  Each arm transcribes the handler or
method of `src/lib/index.ts` it is named after.  In `peerConnect`, the source
runs `this.peer.on('data', this.onMessageReceived)`: the listener is the
callback value read at that moment, so we snapshot it into
`boundDataHandler`. -/
def Client.step (s : ClientState) (ev : ClientEvent) : Except ClientError ClientState :=
  match ev with
  | .socketData decoded => Client.handleData s decoded
  | .joinRoomCall room =>
      .ok { s with
        peer := some { connected := false, boundDataHandler := none }
        joinTarget := some room }
  | .peerSignal sig =>
      match s.joinTarget with
      | some room => .ok { s with socketOutbox := s.socketOutbox ++ [.joinRoomRequest sig room] }
      | none => .ok s
  | .peerConnect =>
      match s.peer with
      | some p =>
          .ok { s with peer := some { p with connected := true, boundDataHandler := some s.onMessageReceived } }
      | none => .ok s
  | .peerData payload =>
      match s.peer with
      | some p =>
          match p.boundDataHandler with
          | some (some cb) => .ok { s with messageCalls := s.messageCalls ++ [(cb, payload)] }
          | _ => .ok s
      | none => .ok s
  | .listenForMessages cb => .ok { s with onMessageReceived := some cb }
  | .sendCall message =>
      match s.peer with
      | none => .error .sendBeforePeerConstructed
      | some p =>
          if p.connected then .ok { s with peerOutbox := s.peerOutbox ++ [message] }
          else .error .sendBeforeConnected
  | .leaveRoom => .ok { s with peerDestroyed := true }

/-- Run a `Client` through a sequence of events, stopping at the first thrown
error. -/
def Client.run (s : ClientState) : List ClientEvent → Except ClientError ClientState
  | [] => .ok s
  | ev :: evs =>
      match Client.step s ev with
      | .ok s1 => Client.run s1 evs
      | .error err => .error err

/-- The outcome of the promise `Client.joinRoom` returns. -/
inductive JoinOutcome where
  | resolved
  | timedOut
  deriving DecidableEq, Repr

/-- Modelled from the spec: `util/timedPromise.ts` is not under `src/`.  The
Timed Awaitable settles successfully if the wrapped work's completion signal
fires strictly before the timeout elapses, and fails with `Timeout` otherwise
(at exact equality neither side is guaranteed; the source's behavior there is
whatever the JS timer race produces, so we only rely on the strict cases).
`fireAt` is the time, in milliseconds after the awaitable was created, at which
the completion signal fires, or `none` if it never does. -/
def TimedPromise.outcome (timeoutMs : Nat) (fireAt : Option Nat) : JoinOutcome :=
  match fireAt with
  | some t => if t < timeoutMs then .resolved else .timedOut
  | none => .timedOut

/-- The timeout `Client.joinRoom` passes to `TimedPromise`: `30 * 1000`. -/
def Client.joinRoomTimeoutMs : Nat := 30 * 1000

/-- The outcome of the promise returned by `Client.joinRoom`, as a function of
when the peer-channel `connect` event fires relative to the call: the source
wraps the `connect` handler (which is what calls `resolve`) in
`TimedPromise(30 * 1000, ...)`. -/
def Client.joinRoomOutcome (connectFireAt : Option Nat) : JoinOutcome :=
  TimedPromise.outcome Client.joinRoomTimeoutMs connectFireAt

/-- The envelope kinds the `switch` in `Host.registerEvents` has a case for. -/
def Host.handlesEnvelope : SignalResponse → Bool
  | .roomCreated _ => true
  | .guestRequest _ _ => true
  | .requestAccepted => true
  | _ => false

/-- The envelope kinds the `switch` in `Client.registerEvents` has a case
for. -/
def Client.handlesEnvelope : SignalResponse → Bool
  | .roomJoined _ => true
  | .requestAccepted => true
  | _ => false

/-- The Room Identifier carried by the first `RoomCreated` envelope of a
delivery sequence, if any. -/
def firstRoomCreated : List SignalResponse → Option String
  | [] => none
  | .roomCreated r :: _ => some r
  | _ :: es => firstRoomCreated es

/-- Processing a sequence of relay envelopes leaves the room-created future at
its prior value if it was already resolved, and otherwise resolves it with the
first `RoomCreated` room of the sequence. -/
theorem hostRun_roomCreated_or (es : List SignalResponse) :
    ∀ s s' : HostState, Host.run s (es.map HostEvent.socketData) = .ok s' →
      s'.roomCreated = (s.roomCreated).or (firstRoomCreated es) := by
  induction es with
  | nil =>
      intro s s' h
      simp only [List.map_nil, Host.run] at h
      cases h
      simp [firstRoomCreated]
  | cons d es ih =>
      intro s s' h
      cases d <;>
        simp only [List.map_cons, Host.run, Host.step, Host.handleData,
          Host.registerGuest] at h
      case roomCreated r =>
        have h2 := ih _ s' h
        rw [h2]
        cases hrc : s.roomCreated <;>
          simp [ManagedPromise.resolveWith, hrc, firstRoomCreated]
      case guestRequest o c =>
        have h2 := ih _ s' h
        rw [h2]
        simp [firstRoomCreated]
      case requestAccepted =>
        have h2 := ih _ s' h
        rw [h2]
        simp [firstRoomCreated]
      all_goals cases h

/-- C1: after `createRoom()`, for every sequence of relay envelopes the Host
processes without a protocol error, the room-created promise holds exactly the
`room` field of the first `RoomCreated` envelope received (and is still
pending when none arrived); in particular a second `RoomCreated` envelope does
not change the already-resolved value. -/
theorem createRoom_resolves_first_roomCreated (es : List SignalResponse) (s' : HostState)
    (h : Host.run Host.init (es.map HostEvent.socketData) = .ok s') :
    s'.roomCreated = firstRoomCreated es := by
  have h2 := hostRun_roomCreated_or es Host.init s' h
  simpa [Host.init] using h2

/-- Witness for C1 on the delivery sequence RoomCreated "ABC123",
RequestAccepted, RoomCreated "ZZZ": the promise holds "ABC123". -/
theorem createRoom_resolves_first_roomCreated_witness :
    ({ Host.init with roomCreated := some "ABC123" } : HostState).roomCreated =
      firstRoomCreated [.roomCreated "ABC123", .requestAccepted, .roomCreated "ZZZ"] :=
  createRoom_resolves_first_roomCreated
    [.roomCreated "ABC123", .requestAccepted, .roomCreated "ZZZ"]
    { Host.init with roomCreated := some "ABC123" } rfl

/-- C2: the promise returned by `Client.joinRoom(room)` resolves successfully
when the peer-channel `connect` event fires within the 30000 ms window, and
fails with `Timeout` when no `connect` event fires in that window. -/
theorem joinRoom_timeout_semantics (t : Nat) (h : t < 30000) :
    Client.joinRoomOutcome (some t) = .resolved ∧ Client.joinRoomOutcome none = .timedOut := by
  refine ⟨?_, rfl⟩
  simp [Client.joinRoomOutcome, TimedPromise.outcome, Client.joinRoomTimeoutMs, h]

/-- Witness for C2 at a concrete firing time of 29999 ms. -/
theorem joinRoom_timeout_semantics_witness :
    Client.joinRoomOutcome (some 29999) = .resolved ∧ Client.joinRoomOutcome none = .timedOut :=
  joinRoom_timeout_semantics 29999 (by decide)

/-- C3: an inbound relay envelope whose discriminant is not among the kinds
handled by the receiving role (Host: RoomCreated, GuestRequest,
RequestAccepted; Client: RoomJoined, RequestAccepted) makes the role's data
handler throw a protocol error carrying the decoded payload; it is never
silently ignored. -/
theorem unknown_discriminant_protocol_error (s : HostState) (c : ClientState)
    (d e : SignalResponse) (hd : Host.handlesEnvelope d = false)
    (he : Client.handlesEnvelope e = false) :
    Host.handleData s d = .error (.protocolError d) ∧
    Client.handleData c e = .error (.protocolError e) := by
  constructor
  · cases d <;> simp_all [Host.handlesEnvelope, Host.handleData]
  · cases e <;> simp_all [Client.handlesEnvelope, Client.handleData]

/-- Witness for C3: the Host rejects a `RoomJoined` envelope (valid kind,
wrong role) and the Client rejects a `RoomCreated` envelope. -/
theorem unknown_discriminant_protocol_error_witness :
    Host.handleData Host.init (.roomJoined "a") = .error (.protocolError (.roomJoined "a")) ∧
    Client.handleData Client.init (.roomCreated "r") = .error (.protocolError (.roomCreated "r")) :=
  unknown_discriminant_protocol_error Host.init Client.init
    (.roomJoined "a") (.roomCreated "r") rfl rfl

/-- C6: `Host.sendTo(id, message)` with an `id` absent from the Connection
Registry throws `UnknownClient` synchronously: the step produces an error and
no successor state, so no peer handle is written to and no state changes. -/
theorem sendTo_unknown_client (s : HostState) (client message : String)
    (h : mapHas s.connections client = false) :
    Host.step s (.sendTo client message) = .error (.unknownClient client) := by
  simp [Host.step, h]

/-- Witness for C6 on an empty registry. -/
theorem sendTo_unknown_client_witness :
    Host.step Host.init (.sendTo "guest1" "msg") = .error (.unknownClient "guest1") :=
  sendTo_unknown_client Host.init "guest1" "msg" rfl

/-- C7: a `RequestAccepted` envelope is informational: processing it leaves
the Host state and the Client state (registry, pending futures, callbacks,
outboxes) exactly unchanged, and sends no reply. -/
theorem requestAccepted_no_state_change (s : HostState) (c : ClientState) :
    Host.step s (.socketData .requestAccepted) = .ok s ∧
    Client.step c (.socketData .requestAccepted) = .ok c :=
  ⟨rfl, rfl⟩

/-- C8: `Host.closeRoom()` destroys only the relay socket: the successor state
differs from the input state in the `socketAlive` flag alone, so every
Connection Registry entry and every peer handle (none is added to
`destroyedPeers`) is untouched. -/
theorem closeRoom_destroys_only_socket (s : HostState) :
    Host.step s .closeRoom = .ok { s with socketAlive := false } :=
  rfl

/-- C9: `Client.send(message)` before the session is Connected fails with a
fatal error — accessing the not-yet-constructed peer handle before `joinRoom`,
or invoking the peer transport's `send` before its `connect` fired — and under
the precondition that the peer channel is connected, `send` does not reach
either error branch and writes the message to the peer handle. -/
theorem send_before_connected_fails (s : ClientState) (message : String) :
    (s.peer = none → Client.step s (.sendCall message) = .error .sendBeforePeerConstructed) ∧
    (∀ p, s.peer = some p → p.connected = false →
      Client.step s (.sendCall message) = .error .sendBeforeConnected) ∧
    (∀ p, s.peer = some p → p.connected = true →
      Client.step s (.sendCall message) = .ok { s with peerOutbox := s.peerOutbox ++ [message] }) := by
  refine ⟨fun hn => ?_, fun p hp hc => ?_, fun p hp hc => ?_⟩
  · simp [Client.step, hn]
  · simp [Client.step, hp, hc]
  · simp [Client.step, hp, hc]

/-- Witness for C9: a fresh Client (no peer handle yet) fails to send. -/
theorem send_before_connected_fails_witness :
    Client.step Client.init (.sendCall "hello") = .error .sendBeforePeerConstructed :=
  (send_before_connected_fails Client.init "hello").1 rfl

/-- The event sequence of a batch of N concurrent guest joins on a fresh
Host: each pair is (Client Identifier, offer); the relay delivers the N
`GuestRequest` envelopes, then the `connect` events of the N peer handshakes
they spawned (allocated handle ids 0, 1, …) all fire. -/
def guestBatchEvents (pairs : List (String × String)) : List HostEvent :=
  pairs.map (fun p => .socketData (.guestRequest p.2 p.1)) ++
    (List.range pairs.length).map (fun i => .peerConnect i)

/-- The local handshake records a batch of guest requests creates when the
next free peer handle id is `n0`. -/
def allocGuests (n0 : Nat) : List (String × String) → List (Nat × String)
  | [] => []
  | p :: ps => (n0, p.1) :: allocGuests (n0 + 1) ps

/-- Folding `Map.set` over a batch of completed handshakes. -/
def insertAll (conns : List (String × Nat)) : List (Nat × String) → List (String × Nat)
  | [] => conns
  | g :: gs => insertAll (mapSet conns g.2 g.1) gs

/-- Running splits over concatenation of event sequences. -/
theorem hostRun_append (a b : List HostEvent) :
    ∀ s : HostState, Host.run s (a ++ b) =
      match Host.run s a with
      | .ok s1 => Host.run s1 b
      | .error e => .error e := by
  induction a with
  | nil => intro s; simp [Host.run]
  | cons ev a ih =>
      intro s
      simp only [List.cons_append, Host.run]
      cases hstep : Host.step s ev <;> simp [ih]

/-- Running a concatenation, given the result of the run over the first part. -/
theorem hostRun_append_ok (a b : List HostEvent) (s s1 : HostState)
    (h : Host.run s a = .ok s1) : Host.run s (a ++ b) = Host.run s1 b := by
  rw [hostRun_append, h]

/-- Processing a batch of `GuestRequest` envelopes only allocates handshake
records: no registry entry, callback invocation or data handler appears. -/
theorem hostRun_guestRequests (pairs : List (String × String)) :
    ∀ s : HostState,
      Host.run s (pairs.map (fun p => .socketData (.guestRequest p.2 p.1))) =
        .ok { s with nextPeer := s.nextPeer + pairs.length,
                     pendingGuests := s.pendingGuests ++ allocGuests s.nextPeer pairs } := by
  induction pairs with
  | nil => intro s; simp [Host.run, allocGuests]
  | cons p ps ih =>
      intro s
      simp only [List.map_cons, Host.run, Host.step, Host.handleData, Host.registerGuest]
      rw [ih]
      have h1 : s.nextPeer + 1 + ps.length = s.nextPeer + (p :: ps).length := by
        simp; omega
      rw [h1, List.append_assoc, List.singleton_append]
      rfl

/-- Inserting a batch of pairwise-distinct, not-yet-registered clients into
the registry appends one entry per client, in order. -/
theorem insertAll_fresh (pend : List (Nat × String)) :
    ∀ conns : List (String × Nat),
      (∀ g ∈ pend, mapHas conns g.2 = false) → (pend.map Prod.snd).Nodup →
      insertAll conns pend = conns ++ pend.map (fun g => (g.2, g.1)) := by
  induction pend with
  | nil => intro conns _ _; simp [insertAll]
  | cons g gs ih =>
      intro conns hf hnd
      simp only [insertAll]
      have hg : mapHas conns g.2 = false := hf g (by simp)
      have hset : mapSet conns g.2 g.1 = conns ++ [(g.2, g.1)] := by
        simp [mapSet, hg]
      rw [hset, ih]
      · simp
      · intro q hq
        have h1 := hf q (List.mem_cons_of_mem _ hq)
        have h2 : q.2 ≠ g.2 := by
          intro he
          apply (List.nodup_cons.mp hnd).1
          rw [← he]
          exact List.mem_map_of_mem _ hq
        simp only [mapHas, List.any_append] at h1 ⊢
        simp [h1]
        exact fun he => h2 he.symm
      · exact (List.nodup_cons.mp hnd).2

/-- The handle ids a batch allocation hands out are consecutive. -/
theorem allocGuests_map_fst (pairs : List (String × String)) :
    ∀ n0, (allocGuests n0 pairs).map Prod.fst = List.range' n0 pairs.length := by
  induction pairs with
  | nil => intro n0; simp [allocGuests]
  | cons p ps ih => intro n0; simp [allocGuests, List.range'_succ, ih]

/-- The clients a batch allocation records are the requested clients. -/
theorem allocGuests_map_snd (pairs : List (String × String)) :
    ∀ n0, (allocGuests n0 pairs).map Prod.snd = pairs.map Prod.fst := by
  induction pairs with
  | nil => intro n0; simp [allocGuests]
  | cons p ps ih => intro n0; simp [allocGuests, ih]

/-- Processing the `connect` events of all pending handshakes, in order,
registers each client, fires the guest-joined callback once per client and
attaches each data handler. -/
theorem hostRun_connects (pend : List (Nat × String)) :
    ∀ s : HostState, s.pendingGuests = pend → (pend.map Prod.fst).Nodup →
      Host.run s (pend.map (fun g => .peerConnect g.1)) =
        .ok { s with pendingGuests := [],
                     connections := insertAll s.connections pend,
                     guestJoinedCalls := s.guestJoinedCalls ++
                       pend.map (fun g => (s.guestJoinedCallback, g.2)),
                     dataAttached := s.dataAttached ++ pend.map Prod.fst,
                     connectsFired := s.connectsFired ++ pend.map Prod.fst } := by
  induction pend with
  | nil =>
      intro s hs _
      simp only [List.map_nil, Host.run, insertAll, List.append_nil]
      rw [← hs]
  | cons g gs ih =>
      intro s hs hnd
      have hnd' : (g.1 :: gs.map Prod.fst).Nodup := by simpa using hnd
      have hnotin : g.1 ∉ gs.map Prod.fst := (List.nodup_cons.mp hnd').1
      have htail : (gs.map Prod.fst).Nodup := (List.nodup_cons.mp hnd').2
      have hfind : List.find? (fun x => decide (x.1 = g.1)) s.pendingGuests = some g := by
        rw [hs]
        exact List.find?_cons_of_pos _ (by simp)
      have hfilter : s.pendingGuests.filter (fun x => decide (x.1 ≠ g.1)) = gs := by
        rw [hs, List.filter_cons]
        rw [if_neg (by simp)]
        apply List.filter_eq_self.mpr
        intro x hx
        simp only [ne_eq, decide_not, Bool.not_eq_true', decide_eq_false_iff_not]
        intro he
        exact hnotin (he ▸ List.mem_map_of_mem _ hx)
      have hstep : Host.step s (.peerConnect g.1) = .ok { s with
          pendingGuests := gs,
          connections := mapSet s.connections g.2 g.1,
          guestJoinedCalls := s.guestJoinedCalls ++ [(s.guestJoinedCallback, g.2)],
          dataAttached := s.dataAttached ++ [g.1],
          connectsFired := s.connectsFired ++ [g.1] } := by
        simp only [Host.step, hfind, hfilter]
      simp only [List.map_cons, Host.run, hstep]
      rw [ih _ rfl htail]
      simp only [insertAll, List.append_assoc, List.singleton_append, List.map_cons]

/-- The Host state after a fresh Host has processed a whole batch of guest
joins. -/
def guestBatchFinal (pairs : List (String × String)) : HostState :=
  { Host.init with
    nextPeer := pairs.length,
    pendingGuests := [],
    connections := (allocGuests 0 pairs).map (fun g => (g.2, g.1)),
    guestJoinedCalls := pairs.map (fun p => (none, p.1)),
    dataAttached := List.range pairs.length,
    connectsFired := List.range pairs.length }

/-- Running a fresh Host through a batch of guest joins with pairwise-distinct
Client Identifiers produces exactly `guestBatchFinal`. -/
theorem hostRun_guestBatch (pairs : List (String × String))
    (hnd : (pairs.map Prod.fst).Nodup) :
    Host.run Host.init (guestBatchEvents pairs) = .ok (guestBatchFinal pairs) := by
  have hpend : (allocGuests 0 pairs).map Prod.fst = List.range' 0 pairs.length :=
    allocGuests_map_fst pairs 0
  have hpendNodup : ((allocGuests 0 pairs).map Prod.fst).Nodup := by
    rw [hpend]; exact List.nodup_range' ..
  have hconnEvents : (List.range pairs.length).map (fun i => HostEvent.peerConnect i) =
      (allocGuests 0 pairs).map (fun g => HostEvent.peerConnect g.1) := by
    rw [List.range_eq_range', ← hpend, List.map_map]
    rfl
  unfold guestBatchEvents
  rw [hconnEvents]
  rw [hostRun_append_ok _ _ _ _ (hostRun_guestRequests pairs Host.init)]
  rw [hostRun_connects (allocGuests 0 pairs) _ (by simp [Host.init]) hpendNodup]
  have hfresh : insertAll ([] : List (String × Nat)) (allocGuests 0 pairs) =
      (allocGuests 0 pairs).map (fun g => (g.2, g.1)) := by
    rw [insertAll_fresh]
    · simp
    · intro g _; rfl
    · rw [allocGuests_map_snd]; exact hnd
  have hcalls : (allocGuests 0 pairs).map
      (fun g => ((none : Option Nat), g.2)) = pairs.map (fun p => (none, p.1)) := by
    have := allocGuests_map_snd pairs 0
    calc (allocGuests 0 pairs).map (fun g => ((none : Option Nat), g.2))
        = ((allocGuests 0 pairs).map Prod.snd).map (fun c => ((none : Option Nat), c)) := by
          rw [List.map_map]; rfl
      _ = (pairs.map Prod.fst).map (fun c => ((none : Option Nat), c)) := by rw [this]
      _ = pairs.map (fun p => (none, p.1)) := by rw [List.map_map]; rfl
  simp only [Host.init] at hfresh ⊢
  rw [hfresh]
  simp only [guestBatchFinal, Host.init, List.nil_append, Nat.zero_add, hpend,
    ← List.range_eq_range', hcalls]

/-- C4: after N concurrent `GuestRequest` envelopes with pairwise-distinct
Client Identifiers and all N peer-channel `connect` events, the Connection
Registry holds exactly N entries keyed by those identifiers, and
`sendToAll(message)` then writes the same message once to each of the N
registered peer handles. -/
theorem concurrent_guests_registry (pairs : List (String × String)) (message : String)
    (s' : HostState) (hnd : (pairs.map Prod.fst).Nodup)
    (hrun : Host.run Host.init (guestBatchEvents pairs) = .ok s') :
    s'.connections.map Prod.fst = pairs.map Prod.fst ∧
    s'.connections.length = pairs.length ∧
    Host.step s' (.sendToAll message) =
      .ok { s' with peerOutbox := s'.peerOutbox ++
              (List.range pairs.length).map (fun i => (i, message)) } := by
  rw [hostRun_guestBatch pairs hnd] at hrun
  cases hrun
  have hfst : (allocGuests 0 pairs).map Prod.fst = List.range' 0 pairs.length :=
    allocGuests_map_fst pairs 0
  have hsnd : (allocGuests 0 pairs).map Prod.snd = pairs.map Prod.fst :=
    allocGuests_map_snd pairs 0
  refine ⟨?_, ?_, ?_⟩
  · calc (guestBatchFinal pairs).connections.map Prod.fst
        = ((allocGuests 0 pairs).map (fun g => (g.2, g.1))).map Prod.fst := rfl
      _ = (allocGuests 0 pairs).map Prod.snd := by rw [List.map_map]; rfl
      _ = pairs.map Prod.fst := hsnd
  · calc (guestBatchFinal pairs).connections.length
        = (allocGuests 0 pairs).length := by simp [guestBatchFinal]
      _ = ((allocGuests 0 pairs).map Prod.snd).length := by rw [List.length_map]
      _ = pairs.length := by rw [hsnd, List.length_map]
  · have houtbox : (guestBatchFinal pairs).connections.map
        (fun e => (e.2, message)) = (List.range pairs.length).map (fun i => (i, message)) := by
      calc (guestBatchFinal pairs).connections.map (fun e => (e.2, message))
          = (allocGuests 0 pairs).map (fun g => (g.1, message)) := by
            simp only [guestBatchFinal, List.map_map]; rfl
        _ = ((allocGuests 0 pairs).map Prod.fst).map (fun i => (i, message)) := by
            rw [List.map_map]; rfl
        _ = (List.range pairs.length).map (fun i => (i, message)) := by
            rw [hfst, ← List.range_eq_range']
    simp only [Host.step, houtbox]

/-- Witness for C4 with two guests "g1" and "g2". -/
theorem concurrent_guests_registry_witness :
    (guestBatchFinal [("g1", "o1"), ("g2", "o2")]).connections.map Prod.fst =
      [("g1", "o1"), ("g2", "o2")].map Prod.fst ∧
    (guestBatchFinal [("g1", "o1"), ("g2", "o2")]).connections.length =
      ([("g1", "o1"), ("g2", "o2")] : List (String × String)).length ∧
    Host.step (guestBatchFinal [("g1", "o1"), ("g2", "o2")]) (.sendToAll "m") =
      .ok { guestBatchFinal [("g1", "o1"), ("g2", "o2")] with
            peerOutbox := (guestBatchFinal [("g1", "o1"), ("g2", "o2")]).peerOutbox ++
              (List.range ([("g1", "o1"), ("g2", "o2")] : List (String × String)).length).map
                (fun i => (i, "m")) } :=
  concurrent_guests_registry [("g1", "o1"), ("g2", "o2")] "m"
    (guestBatchFinal [("g1", "o1"), ("g2", "o2")]) (by decide) rfl

/-- Membership in `mapSet`: an entry of the updated registry is an old entry
or the newly written pair. -/
theorem mem_mapSet (m : List (String × Nat)) (k : String) (v : Nat)
    (p : String × Nat) (hp : p ∈ mapSet m k v) : p ∈ m ∨ p = (k, v) := by
  unfold mapSet at hp
  split at hp
  · rcases List.mem_map.mp hp with ⟨q, hq, hqe⟩
    split at hqe
    · right; exact hqe.symm
    · left; exact hqe ▸ hq
  · rcases List.mem_append.mp hp with h1 | h1
    · left; exact h1
    · right; simpa using h1

/-- Registry soundness: every Connection Registry entry maps to a peer handle
whose `connect` event has fired. -/
def registryConnected (s : HostState) : Prop :=
  ∀ p ∈ s.connections, p.2 ∈ s.connectsFired

/-- Every Host step preserves registry soundness: entries enter the registry
only at a `peerConnect` event, which also records the firing. -/
theorem step_preserves_registryConnected (s : HostState) (ev : HostEvent) (s' : HostState)
    (hinv : registryConnected s) (h : Host.step s ev = .ok s') :
    registryConnected s' := by
  cases ev with
  | socketConnect =>
      simp only [Host.step] at h; cases h; exact fun p hp => hinv p hp
  | socketData decoded =>
      cases decoded <;>
        simp only [Host.step, Host.handleData, Host.registerGuest] at h <;>
        cases h <;> exact fun p hp => hinv p hp
  | peerSignal pid sig =>
      simp only [Host.step] at h
      split at h <;> cases h <;> exact fun p hp => hinv p hp
  | peerConnect pid =>
      simp only [Host.step] at h
      split at h
      · cases h
        intro p hp
        rcases mem_mapSet _ _ _ p hp with h1 | h1
        · exact List.mem_append.mpr (Or.inl (hinv p h1))
        · rw [h1]; exact List.mem_append.mpr (Or.inr (by simp))
      · cases h
        exact fun p hp => List.mem_append.mpr (Or.inl (hinv p hp))
  | peerData pid payload =>
      simp only [Host.step] at h
      split at h <;> cases h <;> exact fun p hp => hinv p hp
  | listenForGuests cb =>
      simp only [Host.step] at h; cases h; exact fun p hp => hinv p hp
  | listenForMessages cb =>
      simp only [Host.step] at h; cases h; exact fun p hp => hinv p hp
  | sendToAll message =>
      simp only [Host.step] at h; cases h; exact fun p hp => hinv p hp
  | sendTo client message =>
      simp only [Host.step] at h
      split at h
      · split at h <;> cases h <;> exact fun p hp => hinv p hp
      · cases h
  | closeRoom =>
      simp only [Host.step] at h; cases h; exact fun p hp => hinv p hp

/-- Registry soundness is preserved along any event sequence. -/
theorem run_preserves_registryConnected (tr : List HostEvent) :
    ∀ s s' : HostState, registryConnected s → Host.run s tr = .ok s' →
      registryConnected s' := by
  induction tr with
  | nil =>
      intro s s' hinv h
      simp only [Host.run] at h
      cases h
      exact hinv
  | cons ev tr ih =>
      intro s s' hinv h
      simp only [Host.run] at h
      cases hstep : Host.step s ev with
      | ok s1 =>
          rw [hstep] at h
          exact ih s1 s' (step_preserves_registryConnected s ev s1 hinv hstep) h
      | error e =>
          rw [hstep] at h
          cases h

/-- C5: processing a `GuestRequest` only allocates local handshake state (the
registry, the guest-joined call log and the attached data handlers are those
of the input state); the handshake's own `connect` event is what inserts
`(client, handle)` into the registry, invokes the guest-joined callback with
the Client Identifier and attaches the data handler; and in every state
reachable from a fresh Host, every registered handle has had its `connect`
event fire — pre-connect handles are never present in the registry. -/
theorem guest_registered_only_on_connect
    (s : HostState) (offer client : String) (pid : Nat) (e : Nat × String)
    (tr : List HostEvent) (s' : HostState)
    (hfind : s.pendingGuests.find? (fun g => decide (g.1 = pid)) = some e)
    (hrun : Host.run Host.init tr = .ok s') :
    Host.handleData s (.guestRequest offer client) =
      .ok { s with nextPeer := s.nextPeer + 1,
                   pendingGuests := s.pendingGuests ++ [(s.nextPeer, client)] } ∧
    Host.step s (.peerConnect pid) =
      .ok { s with pendingGuests := s.pendingGuests.filter (fun g => decide (g.1 ≠ pid)),
                   connections := mapSet s.connections e.2 pid,
                   guestJoinedCalls := s.guestJoinedCalls ++ [(s.guestJoinedCallback, e.2)],
                   dataAttached := s.dataAttached ++ [pid],
                   connectsFired := s.connectsFired ++ [pid] } ∧
    (∀ p ∈ s'.connections, p.2 ∈ s'.connectsFired) := by
  refine ⟨rfl, ?_, ?_⟩
  · simp [Host.step, hfind]
  · exact run_preserves_registryConnected tr Host.init s'
      (fun p hp => absurd hp (by simp [Host.init])) hrun

/-- A Host with one pending (not yet connected) guest handshake, used to
instantiate the registration theorem. -/
def hostWitState : HostState := { Host.init with pendingGuests := [(0, "guestA")] }

/-- Witness for C5 at a Host holding one pending guest handshake. -/
theorem guest_registered_only_on_connect_witness :
    Host.handleData hostWitState (.guestRequest "o" "c") =
      .ok { hostWitState with
            nextPeer := hostWitState.nextPeer + 1,
            pendingGuests := hostWitState.pendingGuests ++ [(hostWitState.nextPeer, "c")] } ∧
    Host.step hostWitState (.peerConnect 0) =
      .ok { hostWitState with
            pendingGuests := hostWitState.pendingGuests.filter (fun g => decide (g.1 ≠ 0)),
            connections := mapSet hostWitState.connections "guestA" 0,
            guestJoinedCalls := hostWitState.guestJoinedCalls ++
              [(hostWitState.guestJoinedCallback, "guestA")],
            dataAttached := hostWitState.dataAttached ++ [0],
            connectsFired := hostWitState.connectsFired ++ [0] } ∧
    (∀ p ∈ (Host.init : HostState).connections, p.2 ∈ (Host.init : HostState).connectsFired) :=
  guest_registered_only_on_connect hostWitState "o" "c" 0 (0, "guestA") [] Host.init rfl rfl

/-- C10: on the Client, the peer `data` listener is the callback value
snapshotted when `connect` fired, so a callback registered by
`listenForMessages` after `connect` is not the one invoked on inbound data —
the invocation records the bound value `b`, not the later `cb`.  On the Host,
the `data` handler reads `this.onMessageReceived` at each message, so a
callback registered at any time receives every subsequent message. -/
theorem listenForMessages_binding (s : ClientState) (p : PeerHandle) (b cb : Nat)
    (d : String) (h : HostState) (pid hcb : Nat) (e : String)
    (hs : s.peer = some p) (hb : p.boundDataHandler = some (some b))
    (hpid : pid ∈ h.dataAttached) :
    Client.run s [.listenForMessages cb, .peerData d] =
      .ok { s with onMessageReceived := some cb,
                   messageCalls := s.messageCalls ++ [(b, d)] } ∧
    Host.run h [.listenForMessages hcb, .peerData pid e] =
      .ok { h with onMessageReceived := some hcb,
                   messageCalls := h.messageCalls ++ [(some hcb, e)] } := by
  constructor
  · simp [Client.run, Client.step, hs, hb]
  · simp [Host.run, Host.step, hpid]

/-- Witness for C10: a Client whose connect-time bound callback is tag 0
still delivers to 0 after `listenForMessages` registers tag 1; a Host with an
attached guest delivers to the just-registered tag 2. -/
theorem listenForMessages_binding_witness :
    Client.run { Client.init with
        peer := some { connected := true, boundDataHandler := some (some 0) } }
      [.listenForMessages 1, .peerData "m"] =
      .ok { Client.init with
            peer := some { connected := true, boundDataHandler := some (some 0) },
            onMessageReceived := some 1,
            messageCalls := [(0, "m")] } ∧
    Host.run { Host.init with dataAttached := [5] }
      [.listenForMessages 2, .peerData 5 "x"] =
      .ok { Host.init with dataAttached := [5],
                           onMessageReceived := some 2,
                           messageCalls := [(some 2, "x")] } :=
  listenForMessages_binding
    { Client.init with peer := some { connected := true, boundDataHandler := some (some 0) } }
    { connected := true, boundDataHandler := some (some 0) } 0 1 "m"
    { Host.init with dataAttached := [5] } 5 2 "x" rfl rfl (by decide)

end FoxP2P
